import Mathlib

/-!
Verification of the retrieval-and-answer pipeline of the TDS Virtual
Teaching Assistant (`src/vta_api2.py`).

Python strings are embedded as `List Char` (`Str`), so every string
operation of the source (`endswith`, slicing, `split('/')`, `'/'.join`,
`isdigit`, f-string concatenation) is a structurally recursive, fully
executable Lean function.  Outbound calls (collection queries, image
analysis, the model call) are modelled by an environment `Env`; the
returned values additionally carry a trace of the outbound calls that
were attempted, which embeds the observable effects of the code.
-/

namespace VTA

/-- A Python string, embedded as its list of characters. -/
abbrev Str := List Char

/-- Python `sep.join(xs)` for a one-character separator
(used by the source as `'/'.join(url_parts[:-1])` and `"\n".join(contexts)`). -/
def joinWith (c : Char) : List Str → Str
  | [] => []
  | [s] => s
  | s :: t :: rest => s ++ c :: joinWith c (t :: rest)

/-- Python `s.split(sep)` for a one-character separator
(used by the source as `clean_url.split('/')`):
`"".split('/') = [""]`, `"a//b".split('/') = ["a","","b"]`. -/
def splitOnChar (c : Char) : Str → List Str
  | [] => [[]]
  | a :: rest =>
    match splitOnChar c rest with
    | [] => [[]]
    | seg :: segs => if a = c then [] :: seg :: segs else (a :: seg) :: segs

/-- Python `s.isdigit()` restricted to ASCII data: true iff `s` is nonempty
and every character is a decimal digit (`url_parts[-1].isdigit()`;
the corpus URLs are ASCII). -/
def pyIsdigit (s : Str) : Bool :=
  !s.isEmpty && s.all Char.isDigit

/-- Python `url_parts[-1]` (the final '/'-separated segment; the split list
is never empty). -/
def pyLast : List Str → Str
  | [] => []
  | [s] => s
  | _ :: t :: rest => pyLast (t :: rest)

/-- Python `clean_url.endswith('/0')`: the last two characters are `'/'`
followed by `'0'`. -/
def endsWithSlash0 (s : Str) : Bool :=
  match s.reverse with
  | c0 :: c1 :: _ => c0 == '0' && c1 == '/'
  | _ => false

/-- The URL-cleaning logic inlined at `src/vta_api2.py` lines 185-194:

    clean_url = meta["url"]
    if clean_url.endswith('/0'):
        clean_url = clean_url[:-2]
    url_parts = clean_url.split('/')
    if len(url_parts) >= 6 and url_parts[-1].isdigit():
        clean_url = '/'.join(url_parts[:-1])

The spec names this function `canonicalize` (section 4.1). -/
def canonicalize (url : Str) : Str :=
  let u1 := if endsWithSlash0 url then url.dropLast.dropLast else url
  let parts := splitOnChar '/' u1
  if 6 ≤ parts.length ∧ pyIsdigit (pyLast parts) then
    joinWith '/' parts.dropLast
  else u1

/-- Metadata of an indexed document as returned by a collection query.
`url = []` models a missing or empty `url` key (both are Python-falsy, so
`if meta.get("url"):` treats them alike); `title = none` models a missing
`title` key, for which `meta.get("title", default)` supplies the default. -/
structure Meta where
  url : Str
  title : Option Str
deriving DecidableEq

/-- One query hit: a document snippet paired with its metadata
(the source zips `results["documents"][0]` with `results["metadatas"][0]`). -/
structure Hit where
  doc : Str
  meta : Meta
deriving DecidableEq

/-- State of one global collection handle (`tds_collection` /
`discourse_collection` in the source):
`uninit` models the handle still being `None` (skipped by `if collection:`),
`failing` models `.query(...)` raising, and `ready ranked` models a
functioning collection whose ranked hit list for the current query is
`ranked` (a query with `n_results = k` returns the first `k`). -/
inductive Coll where
  | uninit
  | failing
  | ready (ranked : List Hit)
deriving DecidableEq

/-- Trace of outbound calls attempted while serving one request. -/
inductive Eff where
  | queryForum
  | queryCourse
  | imageCall
  | modelCall (systemMsg : Str) (userMsg : Str)
deriving DecidableEq

/-- Python `sources[key] = value` on an insertion-ordered `dict`, the
`sources` map of `retrieve_context`: if the key is present its value is
replaced in place (the key keeps its original position); otherwise the
pair is appended. -/
def dictInsert (m : List (Str × Str)) (k v : Str) : List (Str × Str) :=
  if m.any (fun p => p.1 == k) then
    m.map (fun p => if p.1 == k then (k, v) else p)
  else
    m ++ [(k, v)]

/-- Provenance label for forum hits (`f"Forum Discussion: {doc}"`). -/
def forumLabel : Str := "Forum Discussion: ".toList

/-- Provenance label for course hits (`f"Course Material: {doc}"`). -/
def courseLabel : Str := "Course Material: ".toList

/-- Default title for forum sources (`meta.get("title", "Forum Discussion")`). -/
def defaultForumTitle : Str := "Forum Discussion".toList

/-- Default title for course sources (`meta.get("title", "Course Content")`). -/
def defaultCourseTitle : Str := "Course Content".toList

/-- Body of the forum loop of `retrieve_context` (lines 181-195): append the
labelled snippet to `contexts`; if the hit has a (Python-truthy) URL,
canonicalize it and store it in `sources`. -/
def addForumHit (acc : List Str × List (Str × Str)) (h : Hit) :
    List Str × List (Str × Str) :=
  let cs := acc.1 ++ [forumLabel ++ h.doc]
  if h.meta.url ≠ [] then
    (cs, dictInsert acc.2 (canonicalize h.meta.url) (h.meta.title.getD defaultForumTitle))
  else
    (cs, acc.2)

/-- Body of the course loop of `retrieve_context` (lines 202-205): append the
labelled snippet; a truthy URL is stored as-is (no canonicalization). -/
def addCourseHit (acc : List Str × List (Str × Str)) (h : Hit) :
    List Str × List (Str × Str) :=
  let cs := acc.1 ++ [courseLabel ++ h.doc]
  if h.meta.url ≠ [] then
    (cs, dictInsert acc.2 h.meta.url (h.meta.title.getD defaultCourseTitle))
  else
    (cs, acc.2)

/-- Result of `retrieve_context`, plus the trace of queries attempted. -/
structure RetrievalOut where
  contexts : List Str
  sources : List (Str × Str)
  trace : List Eff
deriving DecidableEq

/-- `retrieve_context(query, max_results=5)` (lines 169-210).  One
`try/except` wraps both per-collection loops, so a raising forum query
aborts the whole block before the course collection is reached, returning
whatever was accumulated so far (the empty state); a raising course query
returns the forum results accumulated before it.  A `None` handle is
skipped by its `if collection:` guard without being queried.  The
`query(..., n_results=min(max_results, 3))` call takes the first
`min(max_results, 3)` ranked hits. -/
def retrieve_context (disc tds : Coll) (maxResults : Nat) : RetrievalOut :=
  match disc with
  | .failing => ⟨[], [], [.queryForum]⟩
  | .uninit =>
    match tds with
    | .failing => ⟨[], [], [.queryCourse]⟩
    | .uninit => ⟨[], [], []⟩
    | .ready chits =>
      let s := (chits.take (min maxResults 3)).foldl addCourseHit ([], [])
      ⟨s.1, s.2, [.queryCourse]⟩
  | .ready fhits =>
    let s1 := (fhits.take (min maxResults 3)).foldl addForumHit ([], [])
    match tds with
    | .failing => ⟨s1.1, s1.2, [.queryForum, .queryCourse]⟩
    | .uninit => ⟨s1.1, s1.2, [.queryForum]⟩
    | .ready chits =>
      let s2 := (chits.take (min maxResults 3)).foldl addCourseHit s1
      ⟨s2.1, s2.2, [.queryForum, .queryCourse]⟩

/-- The literal fallback sentence of line 252. -/
def noContextFallback : Str := "No relevant context found.".toList

/-- `context_str = "\n".join(contexts) if contexts else "No relevant context found."`
(line 252). -/
def contextString (contexts : List Str) : Str :=
  match contexts with
  | [] => noContextFallback
  | _ => joinWith '\n' contexts

/-- Fixed text of the system message preceding the interpolated
`{context_str}` (lines 260-263; the indentation of the Python triple-quoted
f-string is kept, its prose is abbreviated to its first words since only
the verbatim embedding of `context_str` is at stake). -/
def sysMsgPre : Str :=
  "You are a Virtual Teaching Assistant for the Tools in Data Science course.\n                    Answer questions using ONLY the provided context.\n                    Context:\n                    ".toList

/-- Fixed text following the interpolated `{context_str}` (line 264). -/
def sysMsgPost : Str := "\n                    ".toList

/-- The system message of the model call: the f-string of lines 260-264,
which embeds `context_str` verbatim between the fixed pieces. -/
def systemMessage (contextStr : Str) : Str :=
  sysMsgPre ++ contextStr ++ sysMsgPost

/-- A response link (`LinkResponse`, lines 44-46). -/
structure LinkResponse where
  url : Str
  text : Str
deriving DecidableEq

/-- The success payload (`AnswerResponse`, lines 48-50). -/
structure AnswerResponse where
  answer : Str
  links : List LinkResponse
deriving DecidableEq

/-- `links = [LinkResponse(url=url, text=text) for url, text in list(sources.items())[:10]]`
(lines 274-277): the first ten entries of the insertion-ordered sources
map, in order. -/
def mkLinks (sources : List (Str × Str)) : List LinkResponse :=
  (sources.take 10).map (fun p => ⟨p.1, p.2⟩)

/-- A request (`QuestionRequest`, lines 40-42): `question` is required,
`image` optional. -/
structure QuestionRequest where
  question : Str
  image : Option Str
deriving DecidableEq

/-- External collaborators of one request: the two collection handles, the
image-understanding capability (`analyze_image` catches its own exceptions
and returns `""` on failure, so it is total), and the chat-completion
capability (`none` models the call raising). -/
structure Env where
  disc : Coll
  tds : Coll
  analyzeImage : Str → Str
  modelComplete : Str → Str → Option Str

/-- The `query_context` construction of lines 231-235 together with its
trace: image analysis runs only for a Python-truthy `image` field, and its
description is appended only when itself truthy. -/
def effectiveQuery (env : Env) (req : QuestionRequest) : Str × List Eff :=
  match req.image with
  | none => (req.question, [])
  | some img =>
    if img = [] then (req.question, [])
    else
      let desc := env.analyzeImage img
      (if desc = [] then req.question
       else req.question ++ "\nImage Context: ".toList ++ desc,
       [.imageCall])

/-- Outcome shaping of lines 255-284: a raising model call (`none`) is
caught by the handler's `except` clause and surfaced as HTTP 500 with an
opaque detail; a successful call is wrapped with the truncated links. -/
def finishAnswer (sources : List (Str × Str)) (trace : List Eff)
    (modelResult : Option Str) : Except (Nat × Str) AnswerResponse × List Eff :=
  match modelResult with
  | none => (.error (500, "Error processing request".toList), trace)
  | some ans => (.ok ⟨ans, mkLinks sources⟩, trace)

/-- The POST handler `answer_question` (lines 224-284), returning either the
`AnswerResponse` or the HTTP 500 error produced by the handler's
`except` clause, together with the trace of outbound calls.  There is no
validation of `question`: retrieval and the model call run unconditionally,
and only a raising model call reaches the `except` clause. -/
def answer_question (env : Env) (req : QuestionRequest) :
    Except (Nat × Str) AnswerResponse × List Eff :=
  let eq := effectiveQuery env req
  let r := retrieve_context env.disc env.tds 5
  let sys := systemMessage (contextString r.contexts)
  finishAnswer r.sources (eq.2 ++ r.trace ++ [.modelCall sys eq.1])
    (env.modelComplete sys eq.1)

/-! ### The forum corpus's URL scheme

The forum scraper (`src/discourse_scraper.py`, line 94) builds every topic
URL as `"https://discourse.onlinedegree.iitm.ac.in" + href` with `href`
starting in `"/t/"`; a Discourse topic href is `/t/<slug>/<numeric-id>`,
optionally followed by `/<numeric-post-number>`. -/

/-- First '/'-segment of the scheme (`"https:"`). -/
def httpsSeg : Str := "https:".toList

/-- Host segment of the scheme. -/
def hostSeg : Str := "discourse.onlinedegree.iitm.ac.in".toList

/-- The fixed leading segments `https:`, ``, host, `t` shared by every
forum URL. -/
def baseSegs : List Str := [httpsSeg, [], hostSeg, ['t']]

/-- The slug-level URL `https://<host>/t/<slug>` (5 segments). -/
def slugUrl (slug : Str) : Str := joinWith '/' (baseSegs ++ [slug])

/-- A thread URL `https://<host>/t/<slug>/<id>` (6 segments). -/
def threadUrl (slug id : Str) : Str := joinWith '/' (baseSegs ++ [slug, id])

/-- A post URL `https://<host>/t/<slug>/<id>/<post>` (7 segments). -/
def postUrl (slug id post : Str) : Str := joinWith '/' (baseSegs ++ [slug, id, post])

/-! ### Helper lemmas on the string primitives -/

lemma splitOnChar_ne_nil (c : Char) (s : Str) : splitOnChar c s ≠ [] := by
  induction s with
  | nil => simp [splitOnChar]
  | cons a t ih =>
    simp only [splitOnChar]
    rcases h : splitOnChar c t with _ | ⟨seg, segs⟩
    · simp
    · by_cases hac : a = c <;> simp [hac]

lemma splitOnChar_of_not_mem (c : Char) (s : Str) (h : c ∉ s) :
    splitOnChar c s = [s] := by
  induction s with
  | nil => rfl
  | cons a t ih =>
    simp only [List.mem_cons, not_or] at h
    simp only [splitOnChar, ih h.2]
    simp [Ne.symm h.1]

lemma splitOnChar_append (c : Char) (s t : Str) (h : c ∉ s) :
    splitOnChar c (s ++ c :: t) = s :: splitOnChar c t := by
  induction s with
  | nil =>
    simp only [List.nil_append, splitOnChar]
    rcases hx : splitOnChar c t with _ | ⟨seg, segs⟩
    · exact absurd hx (splitOnChar_ne_nil c t)
    · simp
  | cons a s' ih =>
    simp only [List.mem_cons, not_or] at h
    have hi := ih h.2
    have hne : a ≠ c := Ne.symm h.1
    rw [List.cons_append]
    rw [splitOnChar, hi]
    simp [hne]

lemma joinWith_append_last (c : Char) (pre : List Str) (s : Str) (h : pre ≠ []) :
    joinWith c (pre ++ [s]) = joinWith c pre ++ c :: s := by
  induction pre with
  | nil => exact absurd rfl h
  | cons a tail ih =>
    cases tail with
    | nil => rfl
    | cons b tb =>
      have hi := ih (by simp)
      calc joinWith c ((a :: b :: tb) ++ [s])
          = a ++ c :: joinWith c ((b :: tb) ++ [s]) := rfl
        _ = a ++ c :: (joinWith c (b :: tb) ++ c :: s) := by rw [hi]
        _ = (a ++ c :: joinWith c (b :: tb)) ++ c :: s := by simp

lemma split_join (c : Char) (segs : List Str) (hne : segs ≠ [])
    (h : ∀ s ∈ segs, c ∉ s) : splitOnChar c (joinWith c segs) = segs := by
  induction segs with
  | nil => exact absurd rfl hne
  | cons a tail ih =>
    cases tail with
    | nil => exact splitOnChar_of_not_mem c a (h a (by simp))
    | cons b tb =>
      have hja : joinWith c (a :: b :: tb) = a ++ c :: joinWith c (b :: tb) := rfl
      rw [hja, splitOnChar_append c a _ (h a (by simp))]
      rw [ih (by simp) (fun s hs => h s (List.mem_cons_of_mem _ hs))]

lemma endsWithSlash0_append_seg (x s : Str) (hn : s ≠ []) (hns : '/' ∉ s)
    (h0 : s ≠ ['0']) : endsWithSlash0 (x ++ '/' :: s) = false := by
  have hrev : (x ++ '/' :: s).reverse = s.reverse ++ '/' :: x.reverse := by
    simp
  rw [endsWithSlash0, hrev]
  rcases hs : s.reverse with _ | ⟨d, tail⟩
  · exact absurd (by simpa using hs) hn
  · rcases tail with _ | ⟨e, es⟩
    · have : s = [d] := by
        have := congrArg List.reverse hs
        simpa using this
      subst this
      have hd : d ≠ '0' := by
        intro hh
        exact h0 (by rw [hh])
      simp [hd]
    · have he : e ∈ s := by
        have : e ∈ s.reverse := by rw [hs]; simp
        simpa using this
      have hne : e ≠ '/' := fun hh => hns (hh ▸ he)
      simp [hne]

lemma endsWithSlash0_append_zero (x : Str) :
    endsWithSlash0 (x ++ ['/', '0']) = true := by
  rw [endsWithSlash0]
  simp

lemma dropLast2_append (x : Str) : (x ++ ['/', '0']).dropLast.dropLast = x := by
  have h1 : x ++ ['/', '0'] = (x ++ ['/']) ++ ['0'] := by simp
  rw [h1, List.dropLast_concat, List.dropLast_concat]

lemma pyIsdigit_ne_nil {s : Str} (h : pyIsdigit s = true) : s ≠ [] := by
  intro hh
  subst hh
  simp [pyIsdigit] at h

lemma pyIsdigit_no_slash {s : Str} (h : pyIsdigit s = true) : '/' ∉ s := by
  intro hm
  simp only [pyIsdigit, Bool.and_eq_true, List.all_eq_true] at h
  have := h.2 '/' hm
  simp [Char.isDigit] at this

/-! ### Canonicalization on the URL scheme -/

lemma noslash_base : ∀ s ∈ baseSegs, '/' ∉ s := by decide

lemma baseSegs_ne_nil : baseSegs ≠ [] := by simp [baseSegs]

lemma threadUrl_eq (slug id : Str) : threadUrl slug id = slugUrl slug ++ '/' :: id := by
  unfold threadUrl slugUrl
  rw [show baseSegs ++ [slug, id] = (baseSegs ++ [slug]) ++ [id] by simp]
  exact joinWith_append_last '/' _ id (by simp [baseSegs])

lemma postUrl_eq (slug id post : Str) :
    postUrl slug id post = threadUrl slug id ++ '/' :: post := by
  unfold postUrl threadUrl
  rw [show baseSegs ++ [slug, id, post] = (baseSegs ++ [slug, id]) ++ [post] by simp]
  exact joinWith_append_last '/' _ post (by simp [baseSegs])

lemma slugUrl_eq (slug : Str) : slugUrl slug = joinWith '/' baseSegs ++ '/' :: slug := by
  unfold slugUrl
  exact joinWith_append_last '/' _ slug baseSegs_ne_nil

lemma split_slugUrl (slug : Str) (hs : '/' ∉ slug) :
    splitOnChar '/' (slugUrl slug) = baseSegs ++ [slug] := by
  unfold slugUrl
  refine split_join '/' _ (by simp [baseSegs]) ?_
  intro s hsm
  rcases List.mem_append.1 hsm with h | h
  · exact noslash_base s h
  · simp at h; subst h; exact hs

lemma split_threadUrl (slug id : Str) (hs : '/' ∉ slug) (hid : '/' ∉ id) :
    splitOnChar '/' (threadUrl slug id) = baseSegs ++ [slug, id] := by
  unfold threadUrl
  refine split_join '/' _ (by simp [baseSegs]) ?_
  intro s hsm
  rcases List.mem_append.1 hsm with h | h
  · exact noslash_base s h
  · simp at h; rcases h with rfl | rfl <;> assumption

lemma split_postUrl (slug id post : Str) (hs : '/' ∉ slug) (hid : '/' ∉ id)
    (hp : '/' ∉ post) :
    splitOnChar '/' (postUrl slug id post) = baseSegs ++ [slug, id, post] := by
  unfold postUrl
  refine split_join '/' _ (by simp [baseSegs]) ?_
  intro s hsm
  rcases List.mem_append.1 hsm with h | h
  · exact noslash_base s h
  · simp at h; rcases h with rfl | rfl | rfl <;> assumption

lemma canonicalize_slugUrl (slug : Str) (hn : slug ≠ []) (hs : '/' ∉ slug)
    (h0 : slug ≠ ['0']) : canonicalize (slugUrl slug) = slugUrl slug := by
  have he : endsWithSlash0 (slugUrl slug) = false := by
    rw [slugUrl_eq]
    exact endsWithSlash0_append_seg _ _ hn hs h0
  simp only [canonicalize, he, Bool.false_eq_true, if_false, split_slugUrl slug hs]
  simp [baseSegs]

lemma canonicalize_threadUrl (slug id : Str) (hn : slug ≠ []) (hs : '/' ∉ slug)
    (h0 : slug ≠ ['0']) (hid : pyIsdigit id = true) :
    canonicalize (threadUrl slug id) = slugUrl slug := by
  by_cases hz : id = ['0']
  · subst hz
    have he : endsWithSlash0 (threadUrl slug ['0']) = true := by
      rw [threadUrl_eq]
      exact endsWithSlash0_append_zero _
    have hd : (threadUrl slug ['0']).dropLast.dropLast = slugUrl slug := by
      rw [threadUrl_eq]
      exact dropLast2_append _
    simp only [canonicalize, he, if_true, hd, split_slugUrl slug hs]
    simp [baseSegs]
  · have he : endsWithSlash0 (threadUrl slug id) = false := by
      rw [threadUrl_eq]
      exact endsWithSlash0_append_seg _ _ (pyIsdigit_ne_nil hid) (pyIsdigit_no_slash hid) hz
    simp only [canonicalize, he, Bool.false_eq_true, if_false,
      split_threadUrl slug id hs (pyIsdigit_no_slash hid)]
    simp only [baseSegs]
    simp [pyLast, hid, slugUrl, baseSegs, List.dropLast]

lemma canonicalize_postUrl_zero (slug id : Str) (hs : '/' ∉ slug)
    (hid : pyIsdigit id = true) :
    canonicalize (postUrl slug id ['0']) = slugUrl slug := by
  have he : endsWithSlash0 (postUrl slug id ['0']) = true := by
    rw [postUrl_eq]
    exact endsWithSlash0_append_zero _
  have hd : (postUrl slug id ['0']).dropLast.dropLast = threadUrl slug id := by
    rw [postUrl_eq]
    exact dropLast2_append _
  simp only [canonicalize, he, if_true, hd,
    split_threadUrl slug id hs (pyIsdigit_no_slash hid)]
  simp only [baseSegs]
  simp [pyLast, hid, slugUrl, baseSegs, List.dropLast]

lemma canonicalize_postUrl_nonzero (slug id post : Str) (hs : '/' ∉ slug)
    (hid : pyIsdigit id = true) (hp : pyIsdigit post = true) (hz : post ≠ ['0']) :
    canonicalize (postUrl slug id post) = threadUrl slug id := by
  have he : endsWithSlash0 (postUrl slug id post) = false := by
    rw [postUrl_eq]
    exact endsWithSlash0_append_seg _ _ (pyIsdigit_ne_nil hp) (pyIsdigit_no_slash hp) hz
  simp only [canonicalize, he, Bool.false_eq_true, if_false,
    split_postUrl slug id post hs (pyIsdigit_no_slash hid) (pyIsdigit_no_slash hp)]
  simp only [baseSegs]
  simp [pyLast, hp, threadUrl, baseSegs, List.dropLast]


lemma addForumHit_fst (acc : List Str × List (Str × Str)) (h : Hit) :
    (addForumHit acc h).1 = acc.1 ++ [forumLabel ++ h.doc] := by
  unfold addForumHit
  split <;> rfl

lemma addCourseHit_fst (acc : List Str × List (Str × Str)) (h : Hit) :
    (addCourseHit acc h).1 = acc.1 ++ [courseLabel ++ h.doc] := by
  unfold addCourseHit
  split <;> rfl

lemma foldl_addForumHit_fst (hits : List Hit) :
    ∀ acc : List Str × List (Str × Str),
      (hits.foldl addForumHit acc).1 = acc.1 ++ hits.map (fun h => forumLabel ++ h.doc) := by
  induction hits with
  | nil => intro acc; simp
  | cons h t ih =>
    intro acc
    simp only [List.foldl_cons, List.map_cons]
    rw [ih (addForumHit acc h), addForumHit_fst]
    simp

lemma foldl_addCourseHit_fst (hits : List Hit) :
    ∀ acc : List Str × List (Str × Str),
      (hits.foldl addCourseHit acc).1 = acc.1 ++ hits.map (fun h => courseLabel ++ h.doc) := by
  induction hits with
  | nil => intro acc; simp
  | cons h t ih =>
    intro acc
    simp only [List.foldl_cons, List.map_cons]
    rw [ih (addCourseHit acc h), addCourseHit_fst]
    simp

lemma keys_dictInsert_of_mem (m : List (Str × Str)) (k v : Str)
    (h : m.any (fun p => p.1 == k) = true) :
    (dictInsert m k v).map Prod.fst = m.map Prod.fst := by
  unfold dictInsert
  rw [if_pos h, List.map_map]
  refine List.map_congr_left ?_
  intro p hp
  by_cases hpk : p.1 == k
  · simp only [Function.comp_apply, hpk, if_true]
    exact (beq_iff_eq.1 hpk).symm
  · simp [Function.comp, hpk]

lemma keys_dictInsert_of_not_mem (m : List (Str × Str)) (k v : Str)
    (h : m.any (fun p => p.1 == k) = false) :
    (dictInsert m k v).map Prod.fst = m.map Prod.fst ++ [k] := by
  unfold dictInsert
  rw [if_neg (by simp [h]), List.map_append]
  rfl

lemma nodup_keys_dictInsert (m : List (Str × Str)) (k v : Str)
    (h : (m.map Prod.fst).Nodup) :
    ((dictInsert m k v).map Prod.fst).Nodup := by
  cases hx : m.any (fun p => p.1 == k)
  · rw [keys_dictInsert_of_not_mem m k v hx]
    refine List.Nodup.append h (List.nodup_singleton k) ?_
    intro a ha hb
    simp only [List.mem_singleton] at hb
    have hall : ∀ p ∈ m, ¬(p.1 == k) = true := by
      rw [← List.any_eq_false]
      exact hx
    obtain ⟨p, hp, hpk⟩ := List.mem_map.1 ha
    exact (hall p hp) (by simp [hpk, hb])
  · rw [keys_dictInsert_of_mem m k v hx]
    exact h

lemma length_dictInsert_le (m : List (Str × Str)) (k v : Str) :
    (dictInsert m k v).length ≤ m.length + 1 := by
  unfold dictInsert
  split
  · simp
  · simp


lemma addForumHit_snd_nodup (acc : List Str × List (Str × Str)) (h : Hit)
    (ha : (acc.2.map Prod.fst).Nodup) :
    ((addForumHit acc h).2.map Prod.fst).Nodup := by
  unfold addForumHit
  split
  · exact nodup_keys_dictInsert _ _ _ ha
  · exact ha

lemma addCourseHit_snd_nodup (acc : List Str × List (Str × Str)) (h : Hit)
    (ha : (acc.2.map Prod.fst).Nodup) :
    ((addCourseHit acc h).2.map Prod.fst).Nodup := by
  unfold addCourseHit
  split
  · exact nodup_keys_dictInsert _ _ _ ha
  · exact ha

lemma foldl_addForumHit_nodup (hits : List Hit) :
    ∀ acc : List Str × List (Str × Str), (acc.2.map Prod.fst).Nodup →
      (((hits.foldl addForumHit acc)).2.map Prod.fst).Nodup := by
  induction hits with
  | nil => intro acc h; simpa
  | cons h t ih =>
    intro acc hacc
    exact ih _ (addForumHit_snd_nodup acc h hacc)

lemma foldl_addCourseHit_nodup (hits : List Hit) :
    ∀ acc : List Str × List (Str × Str), (acc.2.map Prod.fst).Nodup →
      (((hits.foldl addCourseHit acc)).2.map Prod.fst).Nodup := by
  induction hits with
  | nil => intro acc h; simpa
  | cons h t ih =>
    intro acc hacc
    exact ih _ (addCourseHit_snd_nodup acc h hacc)

lemma addForumHit_snd_len (acc : List Str × List (Str × Str)) (h : Hit) :
    (addForumHit acc h).2.length ≤ acc.2.length + 1 := by
  unfold addForumHit
  split
  · exact length_dictInsert_le _ _ _
  · simp

lemma addCourseHit_snd_len (acc : List Str × List (Str × Str)) (h : Hit) :
    (addCourseHit acc h).2.length ≤ acc.2.length + 1 := by
  unfold addCourseHit
  split
  · exact length_dictInsert_le _ _ _
  · simp

lemma foldl_addForumHit_len (hits : List Hit) :
    ∀ acc : List Str × List (Str × Str),
      (hits.foldl addForumHit acc).2.length ≤ acc.2.length + hits.length := by
  induction hits with
  | nil => intro acc; simp
  | cons h t ih =>
    intro acc
    calc (List.foldl addForumHit (addForumHit acc h) t).2.length
        ≤ (addForumHit acc h).2.length + t.length := ih _
      _ ≤ (acc.2.length + 1) + t.length := by
          have := addForumHit_snd_len acc h
          omega
      _ = acc.2.length + (h :: t).length := by simp; omega

lemma foldl_addCourseHit_len (hits : List Hit) :
    ∀ acc : List Str × List (Str × Str),
      (hits.foldl addCourseHit acc).2.length ≤ acc.2.length + hits.length := by
  induction hits with
  | nil => intro acc; simp
  | cons h t ih =>
    intro acc
    calc (List.foldl addCourseHit (addCourseHit acc h) t).2.length
        ≤ (addCourseHit acc h).2.length + t.length := ih _
      _ ≤ (acc.2.length + 1) + t.length := by
          have := addCourseHit_snd_len acc h
          omega
      _ = acc.2.length + (h :: t).length := by simp; omega

lemma retrieve_sources_nodup (disc tds : Coll) (m : Nat) :
    ((retrieve_context disc tds m).sources.map Prod.fst).Nodup := by
  cases disc with
  | failing => simp [retrieve_context]
  | uninit =>
    cases tds with
    | failing => simp [retrieve_context]
    | uninit => simp [retrieve_context]
    | ready chits =>
      simpa [retrieve_context] using
        foldl_addCourseHit_nodup _ ([], []) (by simp)
  | ready fhits =>
    cases tds with
    | failing =>
      simpa [retrieve_context] using
        foldl_addForumHit_nodup _ ([], []) (by simp)
    | uninit =>
      simpa [retrieve_context] using
        foldl_addForumHit_nodup _ ([], []) (by simp)
    | ready chits =>
      simpa [retrieve_context] using
        foldl_addCourseHit_nodup _ _ (foldl_addForumHit_nodup _ ([], []) (by simp))

lemma take3_len (l : List Hit) (m : Nat) : (l.take (min m 3)).length ≤ 3 := by
  rw [List.length_take]
  omega

lemma retrieve_sources_len (disc tds : Coll) (m : Nat) :
    (retrieve_context disc tds m).sources.length ≤ 6 := by
  cases disc with
  | failing => simp [retrieve_context]
  | uninit =>
    cases tds with
    | failing => simp [retrieve_context]
    | uninit => simp [retrieve_context]
    | ready chits =>
      have hstep := foldl_addCourseHit_len (chits.take (min m 3)) ([], [])
      have htake := take3_len chits m
      simp at hstep
      simp [retrieve_context]
      omega
  | ready fhits =>
    have h1 := foldl_addForumHit_len (fhits.take (min m 3)) ([], [])
    have hf := take3_len fhits m
    simp at h1
    cases tds with
    | failing =>
      simp [retrieve_context]
      omega
    | uninit =>
      simp [retrieve_context]
      omega
    | ready chits =>
      have h2 := foldl_addCourseHit_len (chits.take (min m 3))
        ((fhits.take (min m 3)).foldl addForumHit ([], []))
      have hc := take3_len chits m
      simp [retrieve_context]
      omega


/-- C2 counterexample: for the post-level forum URL
`https://discourse.onlinedegree.iitm.ac.in/t/topic-slug/12345/7`, a second
application of the canonicalization strips the numeric topic id as well, so
`canonicalize (canonicalize u) ≠ canonicalize u`. -/
theorem canonicalize_not_idempotent :
    canonicalize (canonicalize
        "https://discourse.onlinedegree.iitm.ac.in/t/topic-slug/12345/7".toList) ≠
      canonicalize
        "https://discourse.onlinedegree.iitm.ac.in/t/topic-slug/12345/7".toList := by
  decide

/-- C2 (amended): on every URL of the forum corpus's scheme the
canonicalization reaches a fixed point after two applications — it is
idempotent on thread URLs, while on post URLs a second application also
strips the numeric topic id, so only
`canonicalize ∘ canonicalize ∘ canonicalize = canonicalize ∘ canonicalize`
holds. -/
theorem canonicalize_second_application_fixed (slug id post : Str)
    (hn : slug ≠ []) (hs : '/' ∉ slug) (hnd : pyIsdigit slug = false)
    (hid : pyIsdigit id = true) (hp : pyIsdigit post = true) :
    canonicalize (canonicalize (threadUrl slug id)) =
        canonicalize (threadUrl slug id) ∧
      canonicalize (canonicalize (canonicalize (postUrl slug id post))) =
        canonicalize (canonicalize (postUrl slug id post)) := by
  have h0 : slug ≠ ['0'] := by
    intro hh
    rw [hh] at hnd
    simp [pyIsdigit] at hnd
  constructor
  · simp only [canonicalize_threadUrl slug id hn hs h0 hid,
      canonicalize_slugUrl slug hn hs h0]
  · by_cases hz : post = ['0']
    · subst hz
      simp only [canonicalize_postUrl_zero slug id hs hid,
        canonicalize_slugUrl slug hn hs h0]
    · simp only [canonicalize_postUrl_nonzero slug id post hs hid hp hz,
        canonicalize_threadUrl slug id hn hs h0 hid,
        canonicalize_slugUrl slug hn hs h0]

/-- Witness for `canonicalize_second_application_fixed` at
slug `topic-slug`, topic id `12345`, post number `7`. -/
theorem canonicalize_second_application_fixed_witness :
    ("topic-slug".toList ≠ ([] : Str) ∧ '/' ∉ "topic-slug".toList ∧
      pyIsdigit "topic-slug".toList = false ∧ pyIsdigit "12345".toList = true ∧
      pyIsdigit "7".toList = true) ∧
    (canonicalize (canonicalize (threadUrl "topic-slug".toList "12345".toList)) =
        canonicalize (threadUrl "topic-slug".toList "12345".toList) ∧
      canonicalize (canonicalize (canonicalize
          (postUrl "topic-slug".toList "12345".toList "7".toList))) =
        canonicalize (canonicalize
          (postUrl "topic-slug".toList "12345".toList "7".toList))) :=
  ⟨⟨by decide, by decide, by decide, by decide, by decide⟩,
   canonicalize_second_application_fixed "topic-slug".toList "12345".toList
     "7".toList (by decide) (by decide) (by decide) (by decide) (by decide)⟩

/-- C3 counterexample: the input `.../t/topic-slug/12345/0` does NOT map to
the thread-level URL ending in the topic id `12345`: after the trailing
`/0` is stripped, the six-segment numeric-final-segment rule fires again
and also drops `12345`. -/
theorem canonicalize_zero_suffix_counterexample :
    canonicalize
        "https://discourse.onlinedegree.iitm.ac.in/t/topic-slug/12345/0".toList ≠
      "https://discourse.onlinedegree.iitm.ac.in/t/topic-slug/12345".toList := by
  decide

/-- C3 (amended): `.../t/topic-slug/12345/7` maps to
`.../t/topic-slug/12345` as claimed, but `.../t/topic-slug/12345/0` maps to
`.../t/topic-slug` — stripping the `/0` leaves six segments whose final
segment is the numeric topic id, which the second rule then drops. -/
theorem canonicalize_examples :
    canonicalize
        "https://discourse.onlinedegree.iitm.ac.in/t/topic-slug/12345/7".toList =
      "https://discourse.onlinedegree.iitm.ac.in/t/topic-slug/12345".toList ∧
    canonicalize
        "https://discourse.onlinedegree.iitm.ac.in/t/topic-slug/12345/0".toList =
      "https://discourse.onlinedegree.iitm.ac.in/t/topic-slug".toList := by
  constructor <;> decide


/-- C1 counterexample: two forum hits whose URLs canonicalize to the same
URL but carry different titles — the retained title is the LAST-seen one
(`['B']`), not the first-seen one (`['A']`): Python's `sources[clean_url] =
title` overwrites the stored value. -/
theorem sources_first_seen_counterexample :
    (retrieve_context
        (.ready [⟨['a'], ⟨"https://h/t/x/99/1".toList, some ['A']⟩⟩,
                 ⟨['b'], ⟨"https://h/t/x/99/2".toList, some ['B']⟩⟩])
        .uninit 5).sources
      = [("https://h/t/x/99".toList, ['B'])] ∧ (['B'] : Str) ≠ ['A'] := by
  constructor <;> decide

/-- C1 (amended): the sources map retains at most one title per canonical
URL (its key list has no duplicates), and when two forum hits canonicalize
to the same URL with different titles the retained title is the LAST-seen
one — the later hit overwrites the stored title while the key keeps its
first-seen position. -/
theorem sources_dedup_last_wins :
    (∀ disc tds m, ((retrieve_context disc tds m).sources.map Prod.fst).Nodup) ∧
    (∀ (d1 d2 u1 u2 t1 t2 : Str), u1 ≠ [] → u2 ≠ [] →
      canonicalize u2 = canonicalize u1 →
      (retrieve_context
          (.ready [⟨d1, ⟨u1, some t1⟩⟩, ⟨d2, ⟨u2, some t2⟩⟩]) .uninit 5).sources
        = [(canonicalize u1, t2)]) := by
  constructor
  · exact retrieve_sources_nodup
  · intro d1 d2 u1 u2 t1 t2 h1 h2 hc
    simp only [retrieve_context]
    norm_num [List.take]
    simp [addForumHit, h1, h2, hc, dictInsert]

/-- Witness for `sources_dedup_last_wins` on two concrete post URLs of the
same thread with titles `['A']` and `['B']`. -/
theorem sources_dedup_last_wins_witness :
    ("https://h/t/x/99/1".toList ≠ ([] : Str) ∧
      "https://h/t/x/99/2".toList ≠ ([] : Str) ∧
      canonicalize "https://h/t/x/99/2".toList =
        canonicalize "https://h/t/x/99/1".toList) ∧
    (retrieve_context
        (.ready [⟨['c'], ⟨"https://h/t/x/99/1".toList, some ['A']⟩⟩,
                 ⟨['d'], ⟨"https://h/t/x/99/2".toList, some ['B']⟩⟩]) .uninit 5).sources
      = [(canonicalize "https://h/t/x/99/1".toList, ['B'])] :=
  ⟨⟨by decide, by decide, by decide⟩,
   sources_dedup_last_wins.2 ['c'] ['d'] _ _ ['A'] ['B']
     (by decide) (by decide) (by decide)⟩


/-- C4 counterexample: the forum query fails while the course collection is
available and has a hit — the claim says the failing collection is skipped
and the other's results are still returned, but the single `try/except`
aborts before the course query, returning no contexts at all. -/
theorem retrieve_forum_failure_counterexample :
    (retrieve_context .failing (.ready [⟨['d'], ⟨[], none⟩⟩]) 5).contexts = [] ∧
      [courseLabel ++ ['d']] ≠ ([] : List Str) := by
  constructor <;> decide

/-- C4 (amended): retrieval is total (never raises) but degrades
asymmetrically.  An UNAVAILABLE (`None`) collection is skipped and the
other is still used; if the COURSE query raises, the forum results
gathered before it are returned with an empty course contribution; but if
the FORUM query raises, the whole `try` block aborts and retrieval returns
`([], {})` even when the course collection is available; total failure
also returns `([], {})`. -/
theorem retrieve_degradation :
    (∀ tds m, (retrieve_context .failing tds m).contexts = [] ∧
      (retrieve_context .failing tds m).sources = []) ∧
    (∀ fhits m,
      (retrieve_context (.ready fhits) .failing m).contexts =
          (fhits.take (min m 3)).map (fun h => forumLabel ++ h.doc) ∧
        (retrieve_context (.ready fhits) .failing m).sources =
          (retrieve_context (.ready fhits) .uninit m).sources) ∧
    (∀ chits m, (retrieve_context .uninit (.ready chits) m).contexts =
      (chits.take (min m 3)).map (fun h => courseLabel ++ h.doc)) ∧
    (∀ fhits m, (retrieve_context (.ready fhits) .uninit m).contexts =
      (fhits.take (min m 3)).map (fun h => forumLabel ++ h.doc)) := by
  refine ⟨?_, ?_, ?_, ?_⟩
  · intro tds m
    cases tds <;> simp [retrieve_context]
  · intro fhits m
    refine ⟨?_, ?_⟩
    · simpa [retrieve_context] using foldl_addForumHit_fst (fhits.take (min m 3)) ([], [])
    · simp [retrieve_context]
  · intro chits m
    simpa [retrieve_context] using foldl_addCourseHit_fst (chits.take (min m 3)) ([], [])
  · intro fhits m
    simpa [retrieve_context] using foldl_addForumHit_fst (fhits.take (min m 3)) ([], [])

/-- C9: contexts list all forum hits first (labelled `Forum Discussion: `),
then all course hits (labelled `Course Material: `), in per-collection
relevance order, and the contexts length never exceeds
`2 * max_per_collection`. -/
theorem contexts_order_and_bound :
    (∀ fhits chits m,
      (retrieve_context (.ready fhits) (.ready chits) m).contexts =
        (fhits.take (min m 3)).map (fun h => forumLabel ++ h.doc) ++
          (chits.take (min m 3)).map (fun h => courseLabel ++ h.doc)) ∧
    (∀ disc tds m, (retrieve_context disc tds m).contexts.length ≤ 2 * m) := by
  constructor
  · intro fhits chits m
    simp only [retrieve_context]
    rw [foldl_addCourseHit_fst, foldl_addForumHit_fst]
    simp
  · intro disc tds m
    have hf : ∀ l : List Hit, (l.take (min m 3)).length ≤ m := by
      intro l
      rw [List.length_take]
      omega
    cases disc with
    | failing => simp [retrieve_context]
    | uninit =>
      cases tds with
      | failing => simp [retrieve_context]
      | uninit => simp [retrieve_context]
      | ready chits =>
        have h1 := foldl_addCourseHit_fst (chits.take (min m 3)) ([], [])
        have h2 := hf chits
        simp [retrieve_context, h1]
        omega
    | ready fhits =>
      have h1 := foldl_addForumHit_fst (fhits.take (min m 3)) ([], [])
      have h2 := hf fhits
      cases tds with
      | failing =>
        simp [retrieve_context, h1]
        omega
      | uninit =>
        simp [retrieve_context, h1]
        omega
      | ready chits =>
        have h3 := foldl_addCourseHit_fst (chits.take (min m 3))
          ((fhits.take (min m 3)).foldl addForumHit ([], []))
        have h4 := hf chits
        simp [retrieve_context, h3, h1]
        omega


lemma finishAnswer_ok {s : List (Str × Str)} {t : List Eff} {o : Option Str}
    {resp : AnswerResponse} {tr : List Eff}
    (h : finishAnswer s t o = (.ok resp, tr)) :
    resp.links = mkLinks s ∧ tr = t := by
  cases o with
  | none => simp [finishAnswer] at h
  | some a =>
    simp only [finishAnswer, Prod.mk.injEq, Except.ok.injEq] at h
    exact ⟨h.1 ▸ rfl, h.2.symm⟩

lemma finishAnswer_trace (s : List (Str × Str)) (t : List Eff) (o : Option Str) :
    (finishAnswer s t o).2 = t := by
  cases o <;> rfl

lemma answer_question_ok_links (env : Env) (req : QuestionRequest)
    (resp : AnswerResponse) (tr : List Eff)
    (h : answer_question env req = (.ok resp, tr)) :
    resp.links = mkLinks (retrieve_context env.disc env.tds 5).sources := by
  simp only [answer_question] at h
  exact (finishAnswer_ok h).1

lemma answer_question_trace (env : Env) (req : QuestionRequest) :
    (answer_question env req).2 =
      (effectiveQuery env req).2 ++ (retrieve_context env.disc env.tds 5).trace ++
        [.modelCall
          (systemMessage (contextString (retrieve_context env.disc env.tds 5).contexts))
          (effectiveQuery env req).1] := by
  simp only [answer_question]
  exact finishAnswer_trace _ _ _


/-- C5 counterexample: in the pre-initialization state (both collection
handles still `None`), a request is NOT answered with an explicit
"not ready" condition — the handler silently skips both collections and
returns a normal 200 answer built from the empty-context fallback, with an
empty links list. -/
theorem not_ready_counterexample :
    (answer_question
        ⟨.uninit, .uninit, fun _ => [], fun _ _ => some ['o', 'k']⟩
        ⟨['h', 'i'], none⟩).1
      = .ok ⟨['o', 'k'], []⟩ := by
  rfl

/-- C5 (amended): a request processed while both collection handles are
still uninitialized is answered by silently skipping every collection
query: retrieval contributes nothing, the model is called on the
empty-context fallback prompt, and (when the model call succeeds) the
caller receives a normal answer with an empty links list — no "not ready"
condition is surfaced on the request path. -/
theorem uninitialized_silent_answer (ai : Str → Str)
    (model : Str → Str → Option Str) (q a : Str)
    (h : model (systemMessage noContextFallback) q = some a) :
    answer_question ⟨.uninit, .uninit, ai, model⟩ ⟨q, none⟩ =
      (.ok ⟨a, []⟩, [.modelCall (systemMessage noContextFallback) q]) := by
  simp [answer_question, effectiveQuery, retrieve_context, contextString, h,
    finishAnswer, mkLinks]

/-- Witness for `uninitialized_silent_answer` with a constant model. -/
theorem uninitialized_silent_answer_witness :
    ((fun _ _ => some ['y'] : Str → Str → Option Str)
        (systemMessage noContextFallback) ['q'] = some ['y']) ∧
    answer_question ⟨.uninit, .uninit, fun _ => [], fun _ _ => some ['y']⟩
        ⟨['q'], none⟩ =
      (.ok ⟨['y'], []⟩, [.modelCall (systemMessage noContextFallback) ['q']]) :=
  ⟨rfl, uninitialized_silent_answer (fun _ => []) (fun _ _ => some ['y'])
    ['q'] ['y'] rfl⟩

/-- C6 counterexample: a request whose question is the empty string is NOT
rejected — with both collections ready, the handler still queries the
forum and course collections and performs the model call. -/
theorem empty_question_counterexample :
    Eff.queryForum ∈
        (answer_question
          ⟨.ready [⟨['a'], ⟨[], none⟩⟩], .ready [⟨['b'], ⟨[], none⟩⟩],
            fun _ => [], fun _ _ => some ['o', 'k']⟩
          ⟨[], none⟩).2 ∧
      Eff.queryCourse ∈
        (answer_question
          ⟨.ready [⟨['a'], ⟨[], none⟩⟩], .ready [⟨['b'], ⟨[], none⟩⟩],
            fun _ => [], fun _ _ => some ['o', 'k']⟩
          ⟨[], none⟩).2 := by
  constructor <;> decide

/-- C6 (amended): an empty question receives no validation: the request
proceeds through retrieval and the model call exactly like any other — the
handler queries both ready collections and invokes the model with the
empty string as the user message. -/
theorem empty_question_processed (fhits chits : List Hit) (ai : Str → Str)
    (model : Str → Str → Option Str) :
    Eff.queryForum ∈
        (answer_question ⟨.ready fhits, .ready chits, ai, model⟩ ⟨[], none⟩).2 ∧
      Eff.queryCourse ∈
        (answer_question ⟨.ready fhits, .ready chits, ai, model⟩ ⟨[], none⟩).2 ∧
      (∃ s, Eff.modelCall s [] ∈
        (answer_question ⟨.ready fhits, .ready chits, ai, model⟩ ⟨[], none⟩).2) := by
  rw [answer_question_trace]
  simp [effectiveQuery, retrieve_context]


/-- C7: context assembly joins contexts with a newline separator; the empty
sequence yields the literal (nonempty) fallback sentence, the fallback is
embedded verbatim in the system message, and when both collections return
zero hits the model call is still performed with that fallback prompt. -/
theorem empty_context_fallback :
    contextString [] = noContextFallback ∧
    noContextFallback ≠ [] ∧
    (∀ l : List Str, l ≠ [] → contextString l = joinWith '\n' l) ∧
    (∃ a b : Str, systemMessage (contextString []) = a ++ noContextFallback ++ b) ∧
    (∀ (ai : Str → Str) (model : Str → Str → Option Str) (req : QuestionRequest),
      Eff.modelCall (systemMessage noContextFallback)
          (effectiveQuery ⟨.ready [], .ready [], ai, model⟩ req).1 ∈
        (answer_question ⟨.ready [], .ready [], ai, model⟩ req).2) := by
  refine ⟨rfl, by decide, ?_, ⟨sysMsgPre, sysMsgPost, rfl⟩, ?_⟩
  · intro l hl
    cases l with
    | nil => exact absurd rfl hl
    | cons a t => rfl
  · intro ai model req
    rw [answer_question_trace]
    simp [retrieve_context, contextString]

/-- Witness for `empty_context_fallback` (third conjunct at a one-element
context list). -/
theorem empty_context_fallback_witness :
    ([['x']] ≠ ([] : List Str)) ∧ contextString [['x']] = joinWith '\n' [['x']] :=
  ⟨by decide, empty_context_fallback.2.2.1 [['x']] (by decide)⟩

/-- A concrete sources map with 15 distinct URLs. -/
def sample15 : List (Str × Str) :=
  (List.range 15).map (fun i => ([Char.ofNat (65 + i)], []))

/-- C8: the links of a successful answer are exactly the first
`min 10 |sources|` entries of the insertion-ordered sources map; for a
sources map with 15 unique URLs the links list has length exactly 10 and
preserves insertion order. -/
theorem links_truncation :
    (∀ env req resp tr, answer_question env req = (.ok resp, tr) →
      resp.links = mkLinks (retrieve_context env.disc env.tds 5).sources) ∧
    (∀ s : List (Str × Str), (mkLinks s).length = min 10 s.length ∧
      (mkLinks s).map (fun l => (l.url, l.text)) = s.take 10) ∧
    ((sample15.map Prod.fst).Nodup ∧ sample15.length = 15 ∧
      (mkLinks sample15).length = 10 ∧
      (mkLinks sample15).map (fun l => (l.url, l.text)) = sample15.take 10) := by
  refine ⟨answer_question_ok_links, ?_, ?_⟩
  · intro s
    constructor
    · simp [mkLinks, List.length_take]
    · have hcomp : ((fun l : LinkResponse => (l.url, l.text)) ∘
          fun p : Str × Str => (⟨p.1, p.2⟩ : LinkResponse)) = id := by
        funext p
        rfl
      simp [mkLinks, List.map_map, hcomp]
  · refine ⟨by decide, by decide, by decide, by decide⟩

/-- Witness for `links_truncation` (first conjunct at a concrete
environment with a constant model). -/
theorem links_truncation_witness :
    (answer_question ⟨.uninit, .uninit, fun _ => [], fun _ _ => some ['y']⟩
        ⟨['q'], none⟩ =
      (.ok ⟨['y'], []⟩, [.modelCall (systemMessage noContextFallback) ['q']])) ∧
    (⟨['y'], []⟩ : AnswerResponse).links =
      mkLinks (retrieve_context .uninit .uninit 5).sources :=
  ⟨rfl, links_truncation.1 ⟨.uninit, .uninit, fun _ => [], fun _ _ => some ['y']⟩
    ⟨['q'], none⟩ ⟨['y'], []⟩ _ rfl⟩

/-- C10: the per-collection request size is capped at `min(max_results, 3)`,
so `retrieve_context` with any `max_results ≥ 3` equals `retrieve_context`
with 3; consequently the contexts list never exceeds 6 entries and the
links list of a successful answer never exceeds 6 entries — strictly below
the documented cap of 10. -/
theorem retrieval_cap_three :
    (∀ disc tds m, 3 ≤ m → retrieve_context disc tds m = retrieve_context disc tds 3) ∧
    (∀ disc tds m, (retrieve_context disc tds m).contexts.length ≤ 6) ∧
    (∀ env req resp tr, answer_question env req = (.ok resp, tr) →
      resp.links.length ≤ 6) := by
  refine ⟨?_, ?_, ?_⟩
  · intro disc tds m h
    have hm : min m 3 = 3 := by omega
    cases disc <;> cases tds <;> simp [retrieve_context, hm]
  · intro disc tds m
    cases disc with
    | failing => simp [retrieve_context]
    | uninit =>
      cases tds with
      | failing => simp [retrieve_context]
      | uninit => simp [retrieve_context]
      | ready chits =>
        have h1 := foldl_addCourseHit_fst (chits.take (min m 3)) ([], [])
        simp [retrieve_context, h1]
    | ready fhits =>
      have h1 := foldl_addForumHit_fst (fhits.take (min m 3)) ([], [])
      cases tds with
      | failing => simp [retrieve_context, h1]
      | uninit => simp [retrieve_context, h1]
      | ready chits =>
        have h2 := take3_len fhits m
        have h3 := foldl_addCourseHit_fst (chits.take (min m 3))
          ((fhits.take (min m 3)).foldl addForumHit ([], []))
        have h4 := take3_len chits m
        simp [retrieve_context, h3, h1]
        omega
  · intro env req resp tr h
    rw [answer_question_ok_links env req resp tr h]
    have := retrieve_sources_len env.disc env.tds 5
    simp [mkLinks, List.length_take]
    omega

/-- Witness for `retrieval_cap_three` (first conjunct at `max_results = 5`,
third conjunct at a concrete environment). -/
theorem retrieval_cap_three_witness :
    (3 ≤ 5 ∧ retrieve_context .uninit .uninit 5 = retrieve_context .uninit .uninit 3) ∧
    ((⟨['y'], []⟩ : AnswerResponse).links.length ≤ 6) :=
  ⟨⟨by decide, retrieval_cap_three.1 .uninit .uninit 5 (by decide)⟩,
   retrieval_cap_three.2.2 ⟨.uninit, .uninit, fun _ => [], fun _ _ => some ['y']⟩
     ⟨['q'], none⟩ ⟨['y'], []⟩ _ rfl⟩

end VTA
